import Mathlib

/-!
Shallow embedding of `audiotsm/wsola.py`: the `WSOLAConverter` frame aligner
and the `wsola` parameter deriver.  Samples are modelled as exact integers, frames
as lists of per-channel sample lists, and the fallible numpy operations
(`np.correlate`, `np.copyto`) return `Option`.
-/

namespace AudioTSM

/-- Python slice `l[a:b]` for nonnegative bounds: clamps to the list length. -/
def pySlice (l : List ℤ) (a b : ℕ) : List ℤ :=
  (l.drop a).take (b - a)

/-- Python slice `l[:-h]` with nonnegative `h`: drops the last `h` elements;
empty when `h = 0` (since `l[:-0]` means `l[:0]`) or when `h` is at least the
length. -/
def pyDropLast (l : List ℤ) (h : ℕ) : List ℤ :=
  if h = 0 then [] else l.take (l.length - h)

/-- Dot product of two sample sequences (truncated to the shorter one). -/
def dot (a v : List ℤ) : ℤ :=
  (List.zipWith (fun x y => x * y) a v).sum

/-- Valid-mode correlation scores for `v.length ≤ a.length`: score `i` is the
dot product of `a[i : i + v.length]` with `v`. -/
def corrScores (a v : List ℤ) : List ℤ :=
  (List.range (a.length - v.length + 1)).map (fun i => dot ((a.drop i).take v.length) v)

/-- Model of `np.correlate(a, v)` in the default "valid" mode: it is an error
for either input to be empty, and when `v` is longer than `a` numpy swaps the
arguments and reverses the resulting scores. -/
def npCorrelateValid (a v : List ℤ) : Option (List ℤ) :=
  if a.length = 0 ∨ v.length = 0 then none
  else if v.length ≤ a.length then some (corrScores a v)
  else some ((corrScores v a).reverse)

/-- Model of `np.argmax`: index of the first occurrence of the maximum. -/
def npArgmax : List ℤ → ℕ
  | [] => 0
  | [_] => 0
  | x :: y :: l =>
    if x < (y :: l).getD (npArgmax (y :: l)) 0 then npArgmax (y :: l) + 1 else 0

/-- Model of `np.copyto(dst, src)` for a one-dimensional `dst` of length `n`:
succeeds when the source also has length `n` (copied as is) or has length `1`
(broadcast), and fails otherwise. -/
def npCopyto (n : ℕ) (src : List ℤ) : Option (List ℤ) :=
  if src.length = n then some src
  else if src.length = 1 then some (List.replicate n (src.getD 0 0))
  else none

/-- State of a `WSOLAConverter` instance: the four configuration fields, the
two per-channel buffers, and the first-call flag. -/
structure WSOLAConverter where
  channels : ℕ
  frame_length : ℕ
  synthesis_hop : ℕ
  tolerance : ℕ
  synthesis_frame : List (List ℤ)
  natural_progression : List (List ℤ)
  first : Bool

/-- Constructor of `WSOLAConverter`: stores the configuration, allocates the
two `channels × frame_length` buffers (`np.empty`, so their arbitrary initial
contents are supplied here as parameters) and sets the first-call flag. -/
def WSOLAConverter.init (channels frame_length synthesis_hop tolerance : ℕ)
    (syn0 nat0 : List (List ℤ)) : WSOLAConverter :=
  ⟨channels, frame_length, synthesis_hop, tolerance, syn0, nat0, true⟩

/-- Model of `WSOLAConverter.clear`: sets the first-call flag. -/
def WSOLAConverter.clear (c : WSOLAConverter) : WSOLAConverter :=
  { c with first := true }

/-- The natural-progression row consulted by channel `k` of `convert_frame`:
the stored buffer is only read on a non-first call. -/
def natRowFor (first : Bool) (nat : List (List ℤ)) (k : ℕ) : Option (List ℤ) :=
  if first then some [] else nat[k]?

/-- The shift chosen for one channel: `0` on a first call, otherwise the
argmax of `np.correlate(frame_row[:-synthesis_hop], nat_row)`. -/
def deltaOf (first : Bool) (synthesis_hop : ℕ) (nk fk : List ℤ) : Option ℕ :=
  if first then some 0
  else (npCorrelateValid (pyDropLast fk synthesis_hop) nk).map npArgmax

/-- The body of the per-channel loop of `convert_frame`: the new synthesis
row and the new natural-progression row for channel `k`. -/
def channelStep (c : WSOLAConverter) (frame : List (List ℤ)) (k : ℕ) :
    Option (List ℤ × List ℤ) := do
  let fk ← frame[k]?
  let nk ← natRowFor c.first c.natural_progression k
  let d ← deltaOf c.first c.synthesis_hop nk fk
  let sdest ← c.synthesis_frame[k]?
  let syn ← npCopyto sdest.length (pySlice fk d (d + c.frame_length))
  let ndest ← c.natural_progression[k]?
  let nat ← npCopyto ndest.length
    (pySlice fk (d + c.synthesis_hop) (d + c.synthesis_hop + c.frame_length))
  pure (syn, nat)

/-- Runs `step` for channels `0, …, n - 1` in order, collecting the results;
fails as soon as one channel fails. -/
def runChannels (step : ℕ → Option (List ℤ × List ℤ)) :
    ℕ → Option (List (List ℤ × List ℤ))
  | 0 => some []
  | n + 1 => do
    let xs ← runChannels step n
    let x ← step n
    pure (xs ++ [x])

/-- Model of `WSOLAConverter.convert_frame`: processes every channel,
overwrites the two buffers with the per-channel results, clears the
first-call flag, and returns the synthesis buffer. -/
def WSOLAConverter.convert_frame (c : WSOLAConverter) (frame : List (List ℤ)) :
    Option (WSOLAConverter × List (List ℤ)) := do
  let rs ← runChannels (channelStep c frame) c.channels
  let syn := rs.map Prod.fst
  let nat := rs.map Prod.snd
  pure ({ c with synthesis_frame := syn, natural_progression := nat, first := false }, syn)

/-- Shape invariant of a converter state: both buffers hold `channels` rows of
`frame_length` samples each, as allocated by the constructor. -/
def WF (c : WSOLAConverter) : Prop :=
  c.synthesis_frame.length = c.channels ∧
  c.natural_progression.length = c.channels ∧
  (∀ r ∈ c.synthesis_frame, r.length = c.frame_length) ∧
  (∀ r ∈ c.natural_progression, r.length = c.frame_length)

instance (c : WSOLAConverter) : Decidable (WF c) := by
  unfold WF; infer_instance

/-- A well-formed extended analysis frame for a state `c`: `channels` rows of
`frame_length + tolerance + synthesis_hop` samples each. -/
def frameWF (c : WSOLAConverter) (frame : List (List ℤ)) : Prop :=
  frame.length = c.channels ∧
  ∀ r ∈ frame, r.length = c.frame_length + c.tolerance + c.synthesis_hop

instance (c : WSOLAConverter) (frame : List (List ℤ)) : Decidable (frameWF c frame) := by
  unfold frameWF; infer_instance

/-- Stated from the spec: the valid-overlap cross-correlation between the
first `L + T` samples of the extended analysis frame and the length-`L`
reference buffer, `T + 1` scores where score `i` is the dot product of the
window of `L` samples starting at offset `i` with the reference. -/
def specCrossCorr (L T : ℕ) (fk nk : List ℤ) : List ℤ :=
  (List.range (T + 1)).map (fun i => dot (((fk.take (L + T)).drop i).take L) nk)

/-- Python `int()` applied to a rational: truncation toward zero. -/
def pyInt (q : ℚ) : ℤ :=
  if 0 ≤ q then ⌊q⌋ else -⌊-q⌋

/-- The fully resolved configuration produced by `wsola` and handed to the
external `AnalysisSynthesisTSM` framework: the converter parameters, the two
hops, and the extended-frame padding (the framework call's final argument,
`tolerance + synthesis_hop`). -/
structure WsolaResult where
  channels : ℕ
  frame_length : ℕ
  analysis_hop : ℤ
  synthesis_hop : ℕ
  tolerance : ℕ
  frame_padding : ℕ

/-- The parameter deriver `wsola`: resolves the optional arguments exactly as
the source does and assembles the configuration. -/
def wsola (channels : ℕ) (speed : ℚ) (frame_length : ℕ)
    (analysis_hop : Option ℤ) (synthesis_hop : Option ℕ) (tolerance : Option ℕ) :
    WsolaResult :=
  let sh := match synthesis_hop with
    | some s => s
    | none => frame_length / 2
  let ah := match analysis_hop with
    | some a => a
    | none => pyInt ((sh : ℚ) * speed)
  let tol := match tolerance with
    | some t => t
    | none => frame_length / 2
  ⟨channels, frame_length, ah, sh, tol, tol + sh⟩

/-! ### Properties of `npArgmax` -/

theorem npArgmax_lt_length : ∀ (l : List ℤ), l ≠ [] → npArgmax l < l.length
  | [_], _ => by simp [npArgmax]
  | x :: y :: l, _ => by
    have ih := npArgmax_lt_length (y :: l) (List.cons_ne_nil y l)
    by_cases h : x < (y :: l).getD (npArgmax (y :: l)) 0
    · simp only [npArgmax, if_pos h]
      exact Nat.succ_lt_succ ih
    · simp only [npArgmax, if_neg h]
      exact Nat.succ_pos _

/-- The value at `npArgmax` is a maximum of the list. -/
theorem npArgmax_getD_le : ∀ (l : List ℤ) (i : ℕ), i < l.length →
    l.getD i 0 ≤ l.getD (npArgmax l) 0
  | [], i, hi => by simp at hi
  | [x], i, hi => by
    have : i = 0 := by simpa using hi
    subst this
    simp [npArgmax]
  | x :: y :: l, i, hi => by
    by_cases h : x < (y :: l).getD (npArgmax (y :: l)) 0
    · simp only [npArgmax, if_pos h, List.getD_cons_succ]
      cases i with
      | zero => exact le_of_lt (by simpa using h)
      | succ i => exact npArgmax_getD_le (y :: l) i (by simpa using hi)
    · simp only [npArgmax, if_neg h, List.getD_cons_zero]
      cases i with
      | zero => simp
      | succ i =>
        have h1 := npArgmax_getD_le (y :: l) i (by simpa using hi)
        simp only [List.getD_cons_succ]
        exact le_trans h1 (le_of_not_lt h)

/-- `npArgmax` is the first occurrence of the maximum: every earlier entry is
strictly smaller. -/
theorem npArgmax_getD_lt : ∀ (l : List ℤ) (i : ℕ), i < npArgmax l →
    l.getD i 0 < l.getD (npArgmax l) 0
  | [], i, hi => by simp [npArgmax] at hi
  | [x], i, hi => by simp [npArgmax] at hi
  | x :: y :: l, i, hi => by
    by_cases h : x < (y :: l).getD (npArgmax (y :: l)) 0
    · simp only [npArgmax, if_pos h] at hi ⊢
      simp only [List.getD_cons_succ]
      cases i with
      | zero => simpa using h
      | succ i => exact npArgmax_getD_lt (y :: l) i (Nat.lt_of_succ_lt_succ hi)
    · simp only [npArgmax, if_neg h] at hi
      omega

/-! ### Correlation, slicing and copy lemmas -/

theorem pyDropLast_eq_take (l : List ℤ) (h : ℕ) (hh : h ≠ 0) :
    pyDropLast l h = l.take (l.length - h) := by
  simp [pyDropLast, hh]

theorem specCrossCorr_length (L T : ℕ) (fk nk : List ℤ) :
    (specCrossCorr L T fk nk).length = T + 1 := by
  simp [specCrossCorr]

theorem specCrossCorr_ne_nil (L T : ℕ) (fk nk : List ℤ) :
    specCrossCorr L T fk nk ≠ [] := by
  intro h
  have := specCrossCorr_length L T fk nk
  rw [h] at this
  simp at this

theorem specCrossCorr_getD (L T : ℕ) (fk nk : List ℤ) (i : ℕ) (hi : i ≤ T) :
    (specCrossCorr L T fk nk).getD i 0 = dot (((fk.take (L + T)).drop i).take L) nk := by
  unfold specCrossCorr
  rw [List.getD_eq_getElem?_getD, List.getElem?_map, List.getElem?_range (by omega)]
  rfl

/-- Inside the truncated frame, each correlation window is just a window of
the full extended frame. -/
theorem specCrossCorr_window (L T : ℕ) (fk : List ℤ) (i : ℕ) (hi : i ≤ T) :
    ((fk.take (L + T)).drop i).take L = (fk.drop i).take L := by
  rw [List.drop_take, List.take_take]
  congr 1
  omega

/-- On a correctly sized extended frame, the correlation the source computes
is exactly the spec's valid-overlap cross-correlation. -/
theorem correlate_eq (L T Hs : ℕ) (fk nk : List ℤ) (hL : 1 ≤ L) (hHs : 1 ≤ Hs)
    (hfk : fk.length = L + T + Hs) (hnk : nk.length = L) :
    npCorrelateValid (pyDropLast fk Hs) nk = some (specCrossCorr L T fk nk) := by
  have hdrop : pyDropLast fk Hs = fk.take (L + T) := by
    rw [pyDropLast_eq_take fk Hs (by omega), hfk]
    congr 1
    omega
  have hlen : (fk.take (L + T)).length = L + T := by
    rw [List.length_take, hfk]
    omega
  rw [hdrop]
  unfold npCorrelateValid
  rw [hlen, hnk, if_neg (by omega), if_pos (by omega)]
  unfold corrScores specCrossCorr
  rw [hlen, hnk]
  have : L + T - L + 1 = T + 1 := by omega
  rw [this]

theorem deltaOf_false_eq (L T Hs : ℕ) (fk nk : List ℤ) (hL : 1 ≤ L) (hHs : 1 ≤ Hs)
    (hfk : fk.length = L + T + Hs) (hnk : nk.length = L) :
    deltaOf false Hs nk fk = some (npArgmax (specCrossCorr L T fk nk)) := by
  simp [deltaOf, correlate_eq L T Hs fk nk hL hHs hfk hnk]

theorem npArgmax_specCrossCorr_le (L T : ℕ) (fk nk : List ℤ) :
    npArgmax (specCrossCorr L T fk nk) ≤ T := by
  have h := npArgmax_lt_length (specCrossCorr L T fk nk) (specCrossCorr_ne_nil L T fk nk)
  rw [specCrossCorr_length] at h
  omega

theorem pySlice_length (l : List ℤ) (a L : ℕ) (h : a + L ≤ l.length) :
    (pySlice l a (a + L)).length = L := by
  simp [pySlice]
  omega

theorem pySlice_zero (l : List ℤ) (L : ℕ) : pySlice l 0 L = l.take L := by
  simp [pySlice]

theorem npCopyto_of_length (n : ℕ) (src : List ℤ) (h : src.length = n) :
    npCopyto n src = some src := by
  simp [npCopyto, h]

/-! ### Structural lemmas about `channelStep`, `runChannels`, `convert_frame` -/

/-- When every fetch succeeds and both slices are in range, `channelStep`
returns exactly the two slices of the analysis frame. -/
theorem channelStep_eq (c : WSOLAConverter) (frame : List (List ℤ)) (k : ℕ)
    (fk nk sd nd : List ℤ) (d : ℕ)
    (hfk : frame[k]? = some fk)
    (hnkrow : natRowFor c.first c.natural_progression k = some nk)
    (hd : deltaOf c.first c.synthesis_hop nk fk = some d)
    (hsd : c.synthesis_frame[k]? = some sd) (hsdl : sd.length = c.frame_length)
    (hnd : c.natural_progression[k]? = some nd) (hndl : nd.length = c.frame_length)
    (h1 : d + c.frame_length ≤ fk.length)
    (h2 : d + c.synthesis_hop + c.frame_length ≤ fk.length) :
    channelStep c frame k = some
      (pySlice fk d (d + c.frame_length),
       pySlice fk (d + c.synthesis_hop) (d + c.synthesis_hop + c.frame_length)) := by
  simp only [channelStep, hfk, hnkrow, hd, hsd, hnd, hsdl, hndl,
    Option.bind_eq_bind, Option.some_bind, Option.pure_def,
    npCopyto_of_length _ _ (pySlice_length fk d c.frame_length h1),
    npCopyto_of_length _ _ (pySlice_length fk (d + c.synthesis_hop) c.frame_length h2)]

/-- Per-channel result of `convert_frame` for a well-formed state and frame:
the two emitted slices, at the shift `convert_frame` selects. -/
def convRow (c : WSOLAConverter) (frame : List (List ℤ)) (k : ℕ) : List ℤ × List ℤ :=
  let fk := frame.getD k []
  let nk := c.natural_progression.getD k []
  let d := if c.first then 0 else npArgmax (specCrossCorr c.frame_length c.tolerance fk nk)
  (pySlice fk d (d + c.frame_length),
   pySlice fk (d + c.synthesis_hop) (d + c.synthesis_hop + c.frame_length))

theorem runChannels_of_forall (step : ℕ → Option (List ℤ × List ℤ))
    (f : ℕ → List ℤ × List ℤ) :
    ∀ n, (∀ k, k < n → step k = some (f k)) →
      runChannels step n = some ((List.range n).map f)
  | 0, _ => rfl
  | n + 1, h => by
    have ih := runChannels_of_forall step f n (fun k hk => h k (by omega))
    unfold runChannels
    rw [ih, h n (by omega), List.range_succ]
    simp

theorem runChannels_get (step : ℕ → Option (List ℤ × List ℤ)) :
    ∀ n l, runChannels step n = some l →
      l.length = n ∧ ∀ k, k < n → ∃ x, step k = some x ∧ l[k]? = some x
  | 0, l, h => by
    refine ⟨?_, fun k hk => absurd hk (by omega)⟩
    unfold runChannels at h
    cases h
    rfl
  | n + 1, l, h => by
    unfold runChannels at h
    cases hxs : runChannels step n with
    | none => rw [hxs] at h; cases h
    | some xs =>
      rw [hxs] at h
      cases hx : step n with
      | none => rw [hx] at h; cases h
      | some x =>
        rw [hx] at h
        simp only [Option.bind_eq_bind, Option.some_bind, Option.pure_def,
          Option.some.injEq] at h
        obtain ⟨hlen, hget⟩ := runChannels_get step n xs hxs
        subst h
        refine ⟨by simp [hlen], fun k hk => ?_⟩
        by_cases hkn : k < n
        · obtain ⟨y, hy, hly⟩ := hget k hkn
          exact ⟨y, hy, by rw [← hly]; exact List.getElem?_append_left (by omega)⟩
        · have hkeq : k = n := by omega
          subst hkeq
          refine ⟨x, hx, ?_⟩
          rw [List.getElem?_append_right (by omega)]
          simp [hlen]

theorem runChannels_none (step : ℕ → Option (List ℤ × List ℤ)) (k : ℕ)
    (hstep : step k = none) :
    ∀ n, k < n → runChannels step n = none
  | 0, hk => absurd hk (by omega)
  | n + 1, hk => by
    unfold runChannels
    by_cases hkn : k < n
    · rw [runChannels_none step k hstep n hkn]
      rfl
    · have hkeq : k = n := by omega
      rw [← hkeq]
      cases hxs : runChannels step k <;> simp [hstep]

theorem convert_frame_some (c : WSOLAConverter) (frame : List (List ℤ))
    (p : WSOLAConverter × List (List ℤ)) (h : c.convert_frame frame = some p) :
    ∃ rs, runChannels (channelStep c frame) c.channels = some rs ∧
      p = ({ c with synthesis_frame := rs.map Prod.fst,
                    natural_progression := rs.map Prod.snd,
                    first := false }, rs.map Prod.fst) := by
  unfold WSOLAConverter.convert_frame at h
  cases hrs : runChannels (channelStep c frame) c.channels with
  | none => rw [hrs] at h; cases h
  | some rs =>
    rw [hrs] at h
    simp only [Option.bind_eq_bind, Option.some_bind, Option.pure_def,
      Option.some.injEq] at h
    exact ⟨rs, rfl, h.symm⟩

theorem convert_frame_of_none (c : WSOLAConverter) (frame : List (List ℤ))
    (h : runChannels (channelStep c frame) c.channels = none) :
    c.convert_frame frame = none := by
  unfold WSOLAConverter.convert_frame
  rw [h]
  rfl

theorem frameWF_row (c : WSOLAConverter) (frame : List (List ℤ)) (hfr : frameWF c frame)
    (k : ℕ) (hk : k < c.channels) :
    frame[k]? = some (frame.getD k []) ∧
    (frame.getD k []).length = c.frame_length + c.tolerance + c.synthesis_hop := by
  obtain ⟨hlen, hrow⟩ := hfr
  have hk' : k < frame.length := by omega
  refine ⟨?_, ?_⟩
  · rw [List.getElem?_eq_getElem hk', List.getD_eq_getElem?_getD,
      List.getElem?_eq_getElem hk']
    rfl
  · rw [List.getD_eq_getElem?_getD, List.getElem?_eq_getElem hk']
    exact hrow _ (List.getElem_mem hk')

theorem WF_nat_row (c : WSOLAConverter) (hwf : WF c) (k : ℕ) (hk : k < c.channels) :
    c.natural_progression[k]? = some (c.natural_progression.getD k []) ∧
    (c.natural_progression.getD k []).length = c.frame_length := by
  obtain ⟨-, hlen, -, hrow⟩ := hwf
  have hk' : k < c.natural_progression.length := by omega
  refine ⟨?_, ?_⟩
  · rw [List.getElem?_eq_getElem hk', List.getD_eq_getElem?_getD,
      List.getElem?_eq_getElem hk']
    rfl
  · rw [List.getD_eq_getElem?_getD, List.getElem?_eq_getElem hk']
    exact hrow _ (List.getElem_mem hk')

theorem WF_syn_row (c : WSOLAConverter) (hwf : WF c) (k : ℕ) (hk : k < c.channels) :
    c.synthesis_frame[k]? = some (c.synthesis_frame.getD k []) ∧
    (c.synthesis_frame.getD k []).length = c.frame_length := by
  obtain ⟨hlen, -, hrow, -⟩ := hwf
  have hk' : k < c.synthesis_frame.length := by omega
  refine ⟨?_, ?_⟩
  · rw [List.getElem?_eq_getElem hk', List.getD_eq_getElem?_getD,
      List.getElem?_eq_getElem hk']
    rfl
  · rw [List.getD_eq_getElem?_getD, List.getElem?_eq_getElem hk']
    exact hrow _ (List.getElem_mem hk')

/-- For a well-formed state and frame, every channel's step succeeds and
returns the two `convRow` slices. -/
theorem channelStep_spec (c : WSOLAConverter) (frame : List (List ℤ))
    (hwf : WF c) (hfr : frameWF c frame)
    (hcfg : c.first = false → 1 ≤ c.frame_length ∧ 1 ≤ c.synthesis_hop)
    (k : ℕ) (hk : k < c.channels) :
    channelStep c frame k = some (convRow c frame k) := by
  obtain ⟨hfk, hfkl⟩ := frameWF_row c frame hfr k hk
  obtain ⟨hnd, hndl⟩ := WF_nat_row c hwf k hk
  obtain ⟨hsd, hsdl⟩ := WF_syn_row c hwf k hk
  cases hfirst : c.first with
  | true =>
    have hnat : natRowFor c.first c.natural_progression k = some [] := by
      simp [natRowFor, hfirst]
    have hdelta : deltaOf c.first c.synthesis_hop [] (frame.getD k []) = some 0 := by
      simp [deltaOf, hfirst]
    have h1 : 0 + c.frame_length ≤ (frame.getD k []).length := by omega
    have h2 : 0 + c.synthesis_hop + c.frame_length ≤ (frame.getD k []).length := by omega
    rw [channelStep_eq c frame k (frame.getD k []) [] _ _ 0 hfk hnat hdelta
      hsd hsdl hnd hndl h1 h2]
    simp [convRow, hfirst]
  | false =>
    obtain ⟨hL, hHs⟩ := hcfg hfirst
    have hnat : natRowFor c.first c.natural_progression k =
        some (c.natural_progression.getD k []) := by
      unfold natRowFor
      rw [hfirst]
      simpa using hnd
    have hdelta : deltaOf c.first c.synthesis_hop (c.natural_progression.getD k [])
        (frame.getD k []) = some (npArgmax (specCrossCorr c.frame_length c.tolerance
          (frame.getD k []) (c.natural_progression.getD k []))) := by
      rw [hfirst]
      exact deltaOf_false_eq c.frame_length c.tolerance c.synthesis_hop
        (frame.getD k []) (c.natural_progression.getD k []) hL hHs hfkl hndl
    have hdle := npArgmax_specCrossCorr_le c.frame_length c.tolerance
      (frame.getD k []) (c.natural_progression.getD k [])
    have h1 : npArgmax (specCrossCorr c.frame_length c.tolerance (frame.getD k [])
        (c.natural_progression.getD k [])) + c.frame_length ≤ (frame.getD k []).length := by
      omega
    have h2 : npArgmax (specCrossCorr c.frame_length c.tolerance (frame.getD k [])
        (c.natural_progression.getD k [])) + c.synthesis_hop + c.frame_length ≤
        (frame.getD k []).length := by
      omega
    rw [channelStep_eq c frame k (frame.getD k []) (c.natural_progression.getD k []) _ _ _
      hfk hnat hdelta hsd hsdl hnd hndl h1 h2]
    simp [convRow, hfirst]

/-- Full characterization of `convert_frame` on a well-formed state and
frame: it succeeds, the new buffers are the per-channel `convRow` results,
and the first-call flag is cleared. -/
theorem convert_frame_spec (c : WSOLAConverter) (frame : List (List ℤ))
    (hwf : WF c) (hfr : frameWF c frame)
    (hcfg : c.first = false → 1 ≤ c.frame_length ∧ 1 ≤ c.synthesis_hop) :
    c.convert_frame frame = some
      ({ c with
          synthesis_frame := (List.range c.channels).map (fun k => (convRow c frame k).1),
          natural_progression := (List.range c.channels).map (fun k => (convRow c frame k).2),
          first := false },
        (List.range c.channels).map (fun k => (convRow c frame k).1)) := by
  have hrun := runChannels_of_forall (channelStep c frame) (convRow c frame) c.channels
    (fun k hk => channelStep_spec c frame hwf hfr hcfg k hk)
  unfold WSOLAConverter.convert_frame
  rw [hrun]
  simp [List.map_map, Function.comp]

theorem getElem?_range_map {α : Type} (g : ℕ → α) (n k : ℕ) (hk : k < n) :
    ((List.range n).map g)[k]? = some (g k) := by
  rw [List.getElem?_map, List.getElem?_range hk]
  rfl

/-- For a well-formed state and frame, the per-channel shift exists, is
bounded by the tolerance, and determines the two `convRow` slices. -/
theorem convRow_cases (c : WSOLAConverter) (frame : List (List ℤ))
    (hwf : WF c) (hfr : frameWF c frame)
    (hcfg : c.first = false → 1 ≤ c.frame_length ∧ 1 ≤ c.synthesis_hop)
    (k : ℕ) (hk : k < c.channels) :
    ∃ nk d, natRowFor c.first c.natural_progression k = some nk ∧
      deltaOf c.first c.synthesis_hop nk (frame.getD k []) = some d ∧
      d ≤ c.tolerance ∧
      convRow c frame k =
        (pySlice (frame.getD k []) d (d + c.frame_length),
         pySlice (frame.getD k []) (d + c.synthesis_hop)
           (d + c.synthesis_hop + c.frame_length)) := by
  obtain ⟨hnd, hndl⟩ := WF_nat_row c hwf k hk
  obtain ⟨hfk, hfkl⟩ := frameWF_row c frame hfr k hk
  cases hfirst : c.first with
  | true =>
    refine ⟨[], 0, by simp [natRowFor, hfirst], by simp [deltaOf, hfirst], by omega, ?_⟩
    simp [convRow, hfirst]
  | false =>
    obtain ⟨hL, hHs⟩ := hcfg hfirst
    refine ⟨c.natural_progression.getD k [],
      npArgmax (specCrossCorr c.frame_length c.tolerance (frame.getD k [])
        (c.natural_progression.getD k [])), ?_, ?_, ?_, ?_⟩
    · unfold natRowFor
      simpa using hnd
    · exact deltaOf_false_eq c.frame_length c.tolerance c.synthesis_hop _ _ hL hHs hfkl hndl
    · exact npArgmax_specCrossCorr_le _ _ _ _
    · simp [convRow, hfirst]

theorem frame_row_eq (c : WSOLAConverter) (frame : List (List ℤ))
    (hfr : frameWF c frame) (k : ℕ) (hk : k < c.channels)
    (fk : List ℤ) (h : frame[k]? = some fk) : fk = frame.getD k [] := by
  obtain ⟨h1, -⟩ := frameWF_row c frame hfr k hk
  rw [h1] at h
  exact (Option.some.inj h).symm

/-! ### Claim theorems -/

/-- C1: On a non-first call, for a channel whose extended analysis frame has
exactly `L + T + Hs` samples and whose stored natural-progression row has
length `L`, the shift search correlates the frame with its last `Hs` samples
removed (its first `L + T` samples) against the stored row, producing
exactly `T + 1` valid-overlap scores indexed `0..T` (score `i` is the dot
product of the length-`L` window at offset `i` with the stored row), and the
chosen shift is an index of the maximum score. -/
theorem claim1_cross_correlation_search (L T Hs : ℕ) (fk nk : List ℤ)
    (hL : 1 ≤ L) (hHs : 1 ≤ Hs)
    (hfk : fk.length = L + T + Hs) (hnk : nk.length = L) :
    pyDropLast fk Hs = fk.take (L + T) ∧
    npCorrelateValid (pyDropLast fk Hs) nk = some (specCrossCorr L T fk nk) ∧
    (specCrossCorr L T fk nk).length = T + 1 ∧
    (∀ i, i ≤ T → (specCrossCorr L T fk nk).getD i 0 = dot ((fk.drop i).take L) nk) ∧
    deltaOf false Hs nk fk = some (npArgmax (specCrossCorr L T fk nk)) ∧
    npArgmax (specCrossCorr L T fk nk) ≤ T ∧
    ∀ i, i ≤ T → (specCrossCorr L T fk nk).getD i 0 ≤
      (specCrossCorr L T fk nk).getD (npArgmax (specCrossCorr L T fk nk)) 0 := by
  refine ⟨?_, correlate_eq L T Hs fk nk hL hHs hfk hnk,
    specCrossCorr_length L T fk nk,
    fun i hi => ?_,
    deltaOf_false_eq L T Hs fk nk hL hHs hfk hnk,
    npArgmax_specCrossCorr_le L T fk nk,
    fun i hi => npArgmax_getD_le _ i (by rw [specCrossCorr_length]; omega)⟩
  · rw [pyDropLast_eq_take fk Hs (by omega), hfk]
    congr 1
    omega
  · rw [specCrossCorr_getD L T fk nk i hi, specCrossCorr_window L T fk i hi]

/-- C5: Ties in the correlation scores are broken toward the smallest index:
on a non-first call, if candidates `i < j` attain a common maximal score and
every index below `i` scores strictly less (`i` is the first maximum), the
chosen shift is exactly `i`. -/
theorem claim5_tie_break_smallest (L T Hs : ℕ) (fk nk : List ℤ)
    (hL : 1 ≤ L) (hHs : 1 ≤ Hs)
    (hfk : fk.length = L + T + Hs) (hnk : nk.length = L)
    (i j : ℕ) (hij : i < j) (hjT : j ≤ T)
    (heq : (specCrossCorr L T fk nk).getD i 0 = (specCrossCorr L T fk nk).getD j 0)
    (hmax : ∀ m, m ≤ T →
      (specCrossCorr L T fk nk).getD m 0 ≤ (specCrossCorr L T fk nk).getD i 0)
    (hfirstocc : ∀ m, m < i →
      (specCrossCorr L T fk nk).getD m 0 < (specCrossCorr L T fk nk).getD i 0) :
    deltaOf false Hs nk fk = some i := by
  rw [deltaOf_false_eq L T Hs fk nk hL hHs hfk hnk]
  have hdT : npArgmax (specCrossCorr L T fk nk) ≤ T := npArgmax_specCrossCorr_le L T fk nk
  have hdi : npArgmax (specCrossCorr L T fk nk) = i := by
    rcases Nat.lt_trichotomy (npArgmax (specCrossCorr L T fk nk)) i with h | h | h
    · have h1 := hfirstocc _ h
      have h2 := npArgmax_getD_le (specCrossCorr L T fk nk) i
        (by rw [specCrossCorr_length]; omega)
      omega
    · exact h
    · have h1 := npArgmax_getD_lt (specCrossCorr L T fk nk) i h
      have h2 := hmax _ hdT
      omega
  rw [hdi]

/-- C9: `clear` is idempotent — clearing twice equals clearing once — and in
either case the next `convert_frame` is in first-call mode, choosing shift
`0` for every channel. -/
theorem claim9_clear_idempotent (c : WSOLAConverter) :
    c.clear.clear = c.clear ∧ c.clear.first = true ∧
    ∀ nk fk, deltaOf c.clear.first c.clear.synthesis_hop nk fk = some 0 :=
  ⟨rfl, rfl, fun _ _ => rfl⟩

/-- C10: `clear` modifies only the first-call flag: both buffers and all
four configuration fields are left exactly unchanged. -/
theorem claim10_clear_only_first_flag (c : WSOLAConverter) :
    c.clear.synthesis_frame = c.synthesis_frame ∧
    c.clear.natural_progression = c.natural_progression ∧
    c.clear.channels = c.channels ∧
    c.clear.frame_length = c.frame_length ∧
    c.clear.synthesis_hop = c.synthesis_hop ∧
    c.clear.tolerance = c.tolerance ∧
    c.clear.first = true :=
  ⟨rfl, rfl, rfl, rfl, rfl, rfl, rfl⟩

/-- C3: On a first call (freshly constructed or just-cleared state) with a
well-formed extended frame, every channel uses shift `0` and the emitted
synthesis frame equals `analysis_frame[0:L]` per channel, regardless of the
frame's correlation content and of the stale buffer contents. -/
theorem claim3_first_call_no_shift (c : WSOLAConverter) (frame : List (List ℤ))
    (hwf : WF c) (hfr : frameWF c frame) (hfirst : c.first = true) :
    (∀ nk fk, deltaOf c.first c.synthesis_hop nk fk = some 0) ∧
    ∃ c' out, c.convert_frame frame = some (c', out) ∧
      out.length = c.channels ∧
      ∀ k, k < c.channels → ∀ fk, frame[k]? = some fk →
        out[k]? = some (fk.take c.frame_length) := by
  have hcfg : c.first = false → 1 ≤ c.frame_length ∧ 1 ≤ c.synthesis_hop := by
    rw [hfirst]
    intro h
    simp at h
  refine ⟨fun nk fk => by simp [deltaOf, hfirst], _, _,
    convert_frame_spec c frame hwf hfr hcfg, by simp, ?_⟩
  intro k hk fk hfk
  have hfkeq := frame_row_eq c frame hfr k hk fk hfk
  subst hfkeq
  rw [getElem?_range_map _ _ _ hk]
  simp [convRow, hfirst, pySlice]

/-- C4: On every non-first call with a well-formed extended frame, each
channel's chosen shift `δ` satisfies `0 ≤ δ ≤ T`, and the emitted synthesis
row is `analysis_frame[δ : δ+L]`, a full-length slice lying inside the
supplied frame. -/
theorem claim4_shift_bound (c : WSOLAConverter) (frame : List (List ℤ))
    (hwf : WF c) (hfr : frameWF c frame) (hfirst : c.first = false)
    (hL : 1 ≤ c.frame_length) (hHs : 1 ≤ c.synthesis_hop) :
    ∃ c' out, c.convert_frame frame = some (c', out) ∧
      ∀ k, k < c.channels → ∀ fk, frame[k]? = some fk →
        ∃ nk d, natRowFor c.first c.natural_progression k = some nk ∧
          deltaOf c.first c.synthesis_hop nk fk = some d ∧
          d ≤ c.tolerance ∧
          out[k]? = some (pySlice fk d (d + c.frame_length)) ∧
          d + c.frame_length ≤ fk.length ∧
          (pySlice fk d (d + c.frame_length)).length = c.frame_length := by
  have hcfg : c.first = false → 1 ≤ c.frame_length ∧ 1 ≤ c.synthesis_hop :=
    fun _ => ⟨hL, hHs⟩
  refine ⟨_, _, convert_frame_spec c frame hwf hfr hcfg, ?_⟩
  intro k hk fk hfk
  have hfkeq := frame_row_eq c frame hfr k hk fk hfk
  subst hfkeq
  obtain ⟨nk, d, hnk, hd, hdT, hrow⟩ := convRow_cases c frame hwf hfr hcfg k hk
  have hfkl := (frameWF_row c frame hfr k hk).2
  refine ⟨nk, d, hnk, hd, hdT, ?_, by omega, pySlice_length _ _ _ (by omega)⟩
  rw [getElem?_range_map _ _ _ hk, hrow]

/-- C6: Every call (first or later) that chose shift `δ` in a channel leaves
that channel's natural-progression row equal to
`analysis_frame[δ+Hs : δ+Hs+L]` exactly (a full-length slice), and leaves
the state out of first-call mode. -/
theorem claim6_prediction_consistency (c : WSOLAConverter) (frame : List (List ℤ))
    (hwf : WF c) (hfr : frameWF c frame)
    (hcfg : c.first = false → 1 ≤ c.frame_length ∧ 1 ≤ c.synthesis_hop) :
    ∃ c' out, c.convert_frame frame = some (c', out) ∧ c'.first = false ∧
      ∀ k, k < c.channels → ∀ fk, frame[k]? = some fk →
        ∃ nk d, natRowFor c.first c.natural_progression k = some nk ∧
          deltaOf c.first c.synthesis_hop nk fk = some d ∧
          c'.natural_progression[k]? = some
            (pySlice fk (d + c.synthesis_hop) (d + c.synthesis_hop + c.frame_length)) ∧
          (pySlice fk (d + c.synthesis_hop)
            (d + c.synthesis_hop + c.frame_length)).length = c.frame_length := by
  refine ⟨_, _, convert_frame_spec c frame hwf hfr hcfg, rfl, ?_⟩
  intro k hk fk hfk
  have hfkeq := frame_row_eq c frame hfr k hk fk hfk
  subst hfkeq
  obtain ⟨nk, d, hnk, hd, hdT, hrow⟩ := convRow_cases c frame hwf hfr hcfg k hk
  have hfkl := (frameWF_row c frame hfr k hk).2
  refine ⟨nk, d, hnk, hd, ?_, pySlice_length _ _ _ (by omega)⟩
  rw [getElem?_range_map _ _ _ hk, hrow]

/-- C8: Channel noninterference — two runs whose relevant configuration
agrees and whose inputs agree on channel `k` (frame row and the per-channel
state: the two buffer rows and the first-call flag) process channel `k`
identically: the per-channel step coincides, and when both calls succeed
they emit the same synthesis row for `k` and store the same prediction row
for `k`, regardless of every other channel's content. -/
theorem claim8_channel_independence (c₁ c₂ : WSOLAConverter)
    (frame₁ frame₂ : List (List ℤ)) (k : ℕ)
    (hch : c₁.channels = c₂.channels)
    (hL : c₁.frame_length = c₂.frame_length)
    (hHs : c₁.synthesis_hop = c₂.synthesis_hop)
    (hfirst : c₁.first = c₂.first)
    (hk : k < c₁.channels)
    (hfk : frame₁[k]? = frame₂[k]?)
    (hnk : c₁.natural_progression[k]? = c₂.natural_progression[k]?)
    (hsk : c₁.synthesis_frame[k]? = c₂.synthesis_frame[k]?) :
    channelStep c₁ frame₁ k = channelStep c₂ frame₂ k ∧
    ∀ r₁ r₂, c₁.convert_frame frame₁ = some r₁ → c₂.convert_frame frame₂ = some r₂ →
      r₁.2[k]? = r₂.2[k]? ∧
      r₁.1.natural_progression[k]? = r₂.1.natural_progression[k]? := by
  have hstep : channelStep c₁ frame₁ k = channelStep c₂ frame₂ k := by
    unfold channelStep natRowFor
    rw [hfk, hnk, hsk, hL, hHs, hfirst]
  refine ⟨hstep, fun r₁ r₂ h₁ h₂ => ?_⟩
  obtain ⟨rs₁, hrs₁, hp₁⟩ := convert_frame_some c₁ frame₁ r₁ h₁
  obtain ⟨rs₂, hrs₂, hp₂⟩ := convert_frame_some c₂ frame₂ r₂ h₂
  obtain ⟨hlen₁, hget₁⟩ := runChannels_get _ _ _ hrs₁
  obtain ⟨hlen₂, hget₂⟩ := runChannels_get _ _ _ hrs₂
  obtain ⟨x₁, hx₁, hlx₁⟩ := hget₁ k hk
  obtain ⟨x₂, hx₂, hlx₂⟩ := hget₂ k (by omega)
  have hx : x₁ = x₂ := by
    rw [hstep] at hx₁
    rw [hx₁] at hx₂
    exact Option.some.inj hx₂
  subst hp₁
  subst hp₂
  constructor
  · simp only [List.getElem?_map, hlx₁, hlx₂, hx, Option.map_some]
  · simp only [List.getElem?_map, hlx₁, hlx₂, hx, Option.map_some]

/-- C7: The parameter deriver `wsola` resolves its configuration purely:
`Hs` defaults to `⌊L/2⌋`, `Ha` defaults to `⌊Hs · speed⌋` and `speed` is
ignored entirely whenever `analysis_hop` is given, `T` defaults to `⌊L/2⌋`,
and the extended-frame padding communicated to the external framework is
`T + Hs`. -/
theorem claim7_wsola_resolution (channels : ℕ) (speed : ℚ) (L : ℕ)
    (ah : Option ℤ) (sh : Option ℕ) (tol : Option ℕ) (hspeed : 0 ≤ speed) :
    (wsola channels speed L ah sh tol).synthesis_hop = sh.getD (L / 2) ∧
    (wsola channels speed L ah sh tol).analysis_hop =
      ah.getD ⌊((sh.getD (L / 2) : ℕ) : ℚ) * speed⌋ ∧
    (∀ a speed', wsola channels speed L (some a) sh tol =
      wsola channels speed' L (some a) sh tol) ∧
    (wsola channels speed L ah sh tol).tolerance = tol.getD (L / 2) ∧
    (wsola channels speed L ah sh tol).frame_padding =
      (wsola channels speed L ah sh tol).tolerance +
        (wsola channels speed L ah sh tol).synthesis_hop := by
  have hint : ∀ n : ℕ, pyInt ((n : ℚ) * speed) = ⌊(n : ℚ) * speed⌋ := by
    intro n
    unfold pyInt
    rw [if_pos (mul_nonneg (by positivity) hspeed)]
  cases ah <;> cases sh <;> cases tol <;> simp [wsola, hint]

/-- Concrete malformed-input run used against C2: the converter is
configured with `L = 2`, `Hs = 1`, `T = 1`, so a well-formed extended frame
has `4` samples per channel; this frame has `5`. -/
def exOverlongFrame : List (List ℤ) := [[1, 2, 3, 4, 5]]

/-- A concrete converter state (`channels = 1`, `L = 2`, `Hs = 1`, `T = 1`)
that has already processed one frame. -/
def exState : WSOLAConverter := ⟨1, 2, 1, 1, [[0, 0]], [[2, 3]], false⟩

/-- C2 is false as stated: a call whose per-channel frame length (here `5`)
differs from `L + T + Hs = 4` is not rejected — `convert_frame` silently
processes the over-long frame and emits a synthesis frame. -/
theorem claim2_counterexample :
    exState.frame_length + exState.tolerance + exState.synthesis_hop = 4 ∧
    (∀ r ∈ exOverlongFrame, r.length = 5) ∧
    ¬ frameWF exState exOverlongFrame ∧
    (exState.convert_frame exOverlongFrame).isSome = true := by
  decide

/-- C2 amended: the kernel performs no explicit validation of the frame
length, so it does not fail fast on every malformed frame (an over-long
frame is processed silently, see the counterexample).  Some malformed frames
do fail, from errors inside the numpy operations; two such incidental
rejections are proved here: on a first call, a channel row shorter than `L`
(and not of numpy's broadcastable length `1`) fails the synthesis copy; on a
non-first call, a channel row of length at most `Hs` leaves the correlation
input empty and fails the shift search. -/
theorem claim2_amended_incidental_rejections (c : WSOLAConverter)
    (frame : List (List ℤ)) (k : ℕ) (hk : k < c.channels)
    (fk : List ℤ) (hfk : frame[k]? = some fk) (hwf : WF c) :
    (c.first = true → fk.length < c.frame_length → fk.length ≠ 1 →
      c.convert_frame frame = none) ∧
    (c.first = false → fk.length ≤ c.synthesis_hop →
      c.convert_frame frame = none) := by
  constructor
  · intro hfirst hshort hone
    apply convert_frame_of_none
    have hstep : channelStep c frame k = none := by
      obtain ⟨hsd, hsdl⟩ := WF_syn_row c hwf k hk
      have hnat : natRowFor c.first c.natural_progression k = some [] := by
        simp [natRowFor, hfirst]
      have hdelta : deltaOf c.first c.synthesis_hop [] fk = some 0 := by
        simp [deltaOf, hfirst]
      have hslice : (pySlice fk 0 (0 + c.frame_length)).length = fk.length := by
        simp only [pySlice, List.drop_zero, List.length_take, Nat.zero_add, Nat.sub_zero]
        omega
      have hcopy : npCopyto (c.synthesis_frame.getD k []).length
          (pySlice fk 0 (0 + c.frame_length)) = none := by
        rw [hsdl]
        unfold npCopyto
        rw [hslice, if_neg (by omega), if_neg hone]
      simp only [channelStep, hfk, hnat, hdelta, hsd,
        Option.bind_eq_bind, Option.some_bind]
      rw [hcopy]
      rfl
    exact runChannels_none (channelStep c frame) k hstep c.channels hk
  · intro hfirst hshort
    apply convert_frame_of_none
    have hstep : channelStep c frame k = none := by
      obtain ⟨hnd, hndl⟩ := WF_nat_row c hwf k hk
      have hnat : natRowFor c.first c.natural_progression k =
          some (c.natural_progression.getD k []) := by
        unfold natRowFor
        rw [hfirst]
        simpa using hnd
      have hdrop : pyDropLast fk c.synthesis_hop = [] := by
        unfold pyDropLast
        split
        · rfl
        · rw [Nat.sub_eq_zero_of_le hshort, List.take_zero]
      have hdelta : deltaOf c.first c.synthesis_hop
          (c.natural_progression.getD k []) fk = none := by
        unfold deltaOf
        rw [hfirst, hdrop]
        simp [npCorrelateValid]
      simp only [channelStep, hfk, hnat, hdelta,
        Option.bind_eq_bind, Option.some_bind]
      rfl
    exact runChannels_none (channelStep c frame) k hstep c.channels hk

/-! ### Concrete states and frames for the witness instances -/

/-- A one-channel converter (`L = 2`, `Hs = 1`, `T = 1`) that has not yet
processed a frame; its buffers still hold arbitrary initial contents. -/
def exStateFirst : WSOLAConverter := ⟨1, 2, 1, 1, [[0, 0]], [[7, 7]], true⟩

/-- A well-formed extended frame (4 samples) for the states above. -/
def exFirstFrame : List (List ℤ) := [[1, 2, 3, 4]]

/-- A well-formed extended frame (4 samples) for `exState`. -/
def exFrame : List (List ℤ) := [[5, 2, 3, 0]]

/-- A fresh converter with `L = 3`, `Hs = 1`, `T = 1`. -/
def exShortState : WSOLAConverter := WSOLAConverter.init 1 3 1 1 [[0, 0, 0]] [[0, 0, 0]]

/-- A frame whose single row (2 samples) is shorter than `L = 3`. -/
def exShortFrame : List (List ℤ) := [[1, 2]]

/-- A frame whose single row (1 sample) is no longer than `Hs = 1`, so on a
non-first call the correlation input `row[:-Hs]` is empty. -/
def exTinyFrame : List (List ℤ) := [[7]]

/-- An extended frame row for `L = 1`, `Hs = 1`, `T = 6` whose correlation
scores against the reference `[1]` are `[0, 0, 1, 0, 0, 1, 1]`: the maximum
is attained at indices `2`, `5` and `6`. -/
def exTieFrameRow : List ℤ := [0, 0, 1, 0, 0, 1, 1, 0]

/-- Two-channel state for the noninterference instance. -/
def exLeft : WSOLAConverter := ⟨2, 2, 1, 1, [[0, 0], [0, 0]], [[2, 3], [4, 5]], false⟩

/-- Same as `exLeft` on channel 0, different content on channel 1. -/
def exRight : WSOLAConverter := ⟨2, 2, 1, 1, [[0, 0], [9, 9]], [[2, 3], [7, 1]], false⟩

def exLeftFrame : List (List ℤ) := [[5, 2, 3, 0], [1, 1, 1, 1]]

def exRightFrame : List (List ℤ) := [[5, 2, 3, 0], [8, 0, 7, 2]]

/-! ### Witnesses -/

theorem claim1_witness :
    (1 ≤ 2 ∧ 1 ≤ 1 ∧ ([(5:ℤ), 2, 3, 0]).length = 2 + 1 + 1 ∧ ([(2:ℤ), 3]).length = 2) ∧
    (pyDropLast [(5:ℤ), 2, 3, 0] 1 = ([(5:ℤ), 2, 3, 0]).take (2 + 1) ∧
     npCorrelateValid (pyDropLast [(5:ℤ), 2, 3, 0] 1) [(2:ℤ), 3] =
       some (specCrossCorr 2 1 [(5:ℤ), 2, 3, 0] [(2:ℤ), 3]) ∧
     (specCrossCorr 2 1 [(5:ℤ), 2, 3, 0] [(2:ℤ), 3]).length = 1 + 1 ∧
     (∀ i, i ≤ 1 → (specCrossCorr 2 1 [(5:ℤ), 2, 3, 0] [(2:ℤ), 3]).getD i 0 =
       dot ((([(5:ℤ), 2, 3, 0]).drop i).take 2) [(2:ℤ), 3]) ∧
     deltaOf false 1 [(2:ℤ), 3] [(5:ℤ), 2, 3, 0] =
       some (npArgmax (specCrossCorr 2 1 [(5:ℤ), 2, 3, 0] [(2:ℤ), 3])) ∧
     npArgmax (specCrossCorr 2 1 [(5:ℤ), 2, 3, 0] [(2:ℤ), 3]) ≤ 1 ∧
     ∀ i, i ≤ 1 → (specCrossCorr 2 1 [(5:ℤ), 2, 3, 0] [(2:ℤ), 3]).getD i 0 ≤
       (specCrossCorr 2 1 [(5:ℤ), 2, 3, 0] [(2:ℤ), 3]).getD
         (npArgmax (specCrossCorr 2 1 [(5:ℤ), 2, 3, 0] [(2:ℤ), 3])) 0) :=
  ⟨by decide, claim1_cross_correlation_search 2 1 1 [5, 2, 3, 0] [2, 3]
    (by decide) (by decide) (by decide) (by decide)⟩

theorem claim2_amended_witness :
    ((0 < exShortState.channels ∧ exShortFrame[0]? = some [1, 2] ∧
      WF exShortState ∧ exShortState.first = true ∧
      ([(1:ℤ), 2]).length < exShortState.frame_length ∧ ([(1:ℤ), 2]).length ≠ 1) ∧
     (0 < exState.channels ∧ exTinyFrame[0]? = some [7] ∧
      WF exState ∧ exState.first = false ∧
      ([(7:ℤ)]).length ≤ exState.synthesis_hop)) ∧
    exShortState.convert_frame exShortFrame = none ∧
    exState.convert_frame exTinyFrame = none :=
  ⟨by decide,
   (claim2_amended_incidental_rejections exShortState exShortFrame 0
     (by decide) [1, 2] (by decide) (by decide)).1 (by decide) (by decide) (by decide),
   (claim2_amended_incidental_rejections exState exTinyFrame 0
     (by decide) [7] (by decide) (by decide)).2 (by decide) (by decide)⟩

theorem claim3_witness :
    (WF exStateFirst ∧ frameWF exStateFirst exFirstFrame ∧ exStateFirst.first = true) ∧
    ((∀ nk fk, deltaOf exStateFirst.first exStateFirst.synthesis_hop nk fk = some 0) ∧
     ∃ c' out, exStateFirst.convert_frame exFirstFrame = some (c', out) ∧
       out.length = exStateFirst.channels ∧
       ∀ k, k < exStateFirst.channels → ∀ fk, exFirstFrame[k]? = some fk →
         out[k]? = some (fk.take exStateFirst.frame_length)) :=
  ⟨by decide, claim3_first_call_no_shift exStateFirst exFirstFrame
    (by decide) (by decide) (by decide)⟩

theorem claim4_witness :
    (WF exState ∧ frameWF exState exFrame ∧ exState.first = false ∧
     1 ≤ exState.frame_length ∧ 1 ≤ exState.synthesis_hop) ∧
    (∃ c' out, exState.convert_frame exFrame = some (c', out) ∧
      ∀ k, k < exState.channels → ∀ fk, exFrame[k]? = some fk →
        ∃ nk d, natRowFor exState.first exState.natural_progression k = some nk ∧
          deltaOf exState.first exState.synthesis_hop nk fk = some d ∧
          d ≤ exState.tolerance ∧
          out[k]? = some (pySlice fk d (d + exState.frame_length)) ∧
          d + exState.frame_length ≤ fk.length ∧
          (pySlice fk d (d + exState.frame_length)).length = exState.frame_length) :=
  ⟨by decide, claim4_shift_bound exState exFrame
    (by decide) (by decide) (by decide) (by decide) (by decide)⟩

theorem claim5_witness :
    (1 ≤ 1 ∧ 1 ≤ 1 ∧ exTieFrameRow.length = 1 + 6 + 1 ∧ ([(1:ℤ)]).length = 1 ∧
     2 < 5 ∧ 5 ≤ 6 ∧
     (specCrossCorr 1 6 exTieFrameRow [1]).getD 2 0 =
       (specCrossCorr 1 6 exTieFrameRow [1]).getD 5 0 ∧
     (∀ m, m ≤ 6 → (specCrossCorr 1 6 exTieFrameRow [1]).getD m 0 ≤
       (specCrossCorr 1 6 exTieFrameRow [1]).getD 2 0) ∧
     (∀ m, m < 2 → (specCrossCorr 1 6 exTieFrameRow [1]).getD m 0 <
       (specCrossCorr 1 6 exTieFrameRow [1]).getD 2 0)) ∧
    deltaOf false 1 [(1:ℤ)] exTieFrameRow = some 2 :=
  ⟨by decide, claim5_tie_break_smallest 1 6 1 exTieFrameRow [1]
    (by decide) (by decide) (by decide) (by decide) 2 5
    (by decide) (by decide) (by decide) (by decide) (by decide)⟩

theorem claim6_witness :
    (WF exState ∧ frameWF exState exFrame ∧
     (exState.first = false → 1 ≤ exState.frame_length ∧ 1 ≤ exState.synthesis_hop)) ∧
    (∃ c' out, exState.convert_frame exFrame = some (c', out) ∧ c'.first = false ∧
      ∀ k, k < exState.channels → ∀ fk, exFrame[k]? = some fk →
        ∃ nk d, natRowFor exState.first exState.natural_progression k = some nk ∧
          deltaOf exState.first exState.synthesis_hop nk fk = some d ∧
          c'.natural_progression[k]? = some
            (pySlice fk (d + exState.synthesis_hop)
              (d + exState.synthesis_hop + exState.frame_length)) ∧
          (pySlice fk (d + exState.synthesis_hop)
            (d + exState.synthesis_hop + exState.frame_length)).length =
            exState.frame_length) :=
  ⟨by decide, claim6_prediction_consistency exState exFrame
    (by decide) (by decide) (by decide)⟩

theorem claim7_witness :
    (0 ≤ (1 : ℚ)) ∧
    ((wsola 2 1 1024 none none none).synthesis_hop = Option.getD none (1024 / 2) ∧
     (wsola 2 1 1024 none none none).analysis_hop =
       Option.getD none ⌊((Option.getD none (1024 / 2) : ℕ) : ℚ) * 1⌋ ∧
     (∀ a speed', wsola 2 1 1024 (some a) none none =
       wsola 2 speed' 1024 (some a) none none) ∧
     (wsola 2 1 1024 none none none).tolerance = Option.getD none (1024 / 2) ∧
     (wsola 2 1 1024 none none none).frame_padding =
       (wsola 2 1 1024 none none none).tolerance +
         (wsola 2 1 1024 none none none).synthesis_hop) :=
  ⟨zero_le_one, claim7_wsola_resolution 2 1 1024 none none none zero_le_one⟩

theorem claim8_witness :
    (exLeft.channels = exRight.channels ∧
     exLeft.frame_length = exRight.frame_length ∧
     exLeft.synthesis_hop = exRight.synthesis_hop ∧
     exLeft.first = exRight.first ∧
     0 < exLeft.channels ∧
     exLeftFrame[0]? = exRightFrame[0]? ∧
     exLeft.natural_progression[0]? = exRight.natural_progression[0]? ∧
     exLeft.synthesis_frame[0]? = exRight.synthesis_frame[0]?) ∧
    (channelStep exLeft exLeftFrame 0 = channelStep exRight exRightFrame 0 ∧
     ∀ r₁ r₂, exLeft.convert_frame exLeftFrame = some r₁ →
       exRight.convert_frame exRightFrame = some r₂ →
       r₁.2[0]? = r₂.2[0]? ∧
       r₁.1.natural_progression[0]? = r₂.1.natural_progression[0]?) :=
  ⟨by decide, claim8_channel_independence exLeft exRight exLeftFrame exRightFrame 0
    (by decide) (by decide) (by decide) (by decide) (by decide)
    (by decide) (by decide) (by decide)⟩

end AudioTSM
